import Mathlib

/-!
Shallow embedding of the face-recognition attendance script
(`Face Recognition System/main.py`) and proofs of the specified
properties of its ledger, gallery builder and frame matcher.

Strings are modelled as `List Char` (a Python `str` is a sequence of
characters); the attendance file `Attendence.csv` is modelled by its
content, a `List Char`.  Descriptors are fixed-length vectors of real
numbers, modelled as `List ℚ`; Euclidean-distance comparisons are done
on squared distances, which is exact because `sqrt` is monotone and
both sides of every comparison in the source are nonnegative.
-/

namespace FaceRec

/-- Characters of a Python string. -/
abbrev PyStr := List Char

/-- One step of Python `readlines`: split off the first line.  A line ends
at (and includes) the first newline character; the remainder follows. -/
def readlinesGo : PyStr → PyStr → List PyStr → List PyStr
  | [], cur, acc => (if cur = [] then acc else cur.reverse :: acc).reverse
  | c :: cs, cur, acc =>
      if c = '\n' then readlinesGo cs [] ((c :: cur).reverse :: acc)
      else readlinesGo cs (c :: cur) acc

/-- Python `f.readlines()` on a file whose content is `s`: the lines of `s`,
each line keeping its terminating newline; a final fragment without a
newline is also a line; the empty file has no lines. -/
def readlines (s : PyStr) : List PyStr := readlinesGo s [] []

/-- Python `line.split(',')[0]`: the prefix of `line` before its first
comma (the whole line when it has no comma). -/
def firstField : PyStr → PyStr
  | [] => []
  | c :: cs => if c = ',' then [] else c :: firstField cs

/-- The `namelist` built by `markAttendence`: for each line of the file,
its first comma-separated field. -/
def recordedNames (file : PyStr) : List PyStr :=
  (readlines file).map firstField

/-- Embedding of `markAttendence(name)` from the source, lines 28-39.
The file is opened `r+`, fully read, and the write (if any) lands at the
end, so the call maps old content to new content.  The timestamp string
`dtString` (`now.strftime('%h:%M:%S')` in the source) is passed in, since
wall-clock time is external.  The text written is exactly the source's
f-string `f'n{name}, {dtString}'`: the character `n`, then the name, then
a comma, a space, and the timestamp — the source has no newline escape. -/
def markAttendence (name dtString file : PyStr) : PyStr :=
  if name ∈ recordedNames file then file
  else file ++ 'n' :: (name ++ ',' :: ' ' :: dtString)

/-- Number of stored attendance records carrying label `name`: the lines
of the log whose first comma-separated field is `name`, counted the same
way `markAttendence` itself parses the log. -/
def numRecordsFor (name file : PyStr) : ℕ :=
  (recordedNames file).count name

/-- Number of stored records in the log: its number of lines. -/
def numRecords (file : PyStr) : ℕ :=
  (readlines file).length

/-! ### Theorems about the ledger -/

/-- C1.  The claim says re-submitting a label is a no-op leaving exactly one
record with the first timestamp.  On the code it is false: the appended text
is `n{name}, {time}` (the newline escape is missing), so the stored first
field is `nALICE`, which never equals `ALICE`; the second call writes again,
and the log holds zero parseable records for `ALICE` rather than one. -/
theorem markAttendence_resubmission_bug :
    markAttendence "ALICE".toList "10:00:01".toList
        (markAttendence "ALICE".toList "10:00:00".toList []) =
      "nALICE, 10:00:00nALICE, 10:00:01".toList ∧
    numRecordsFor "ALICE".toList
        (markAttendence "ALICE".toList "10:00:01".toList
          (markAttendence "ALICE".toList "10:00:00".toList [])) = 0 := by
  constructor
  · rfl
  · rfl

/-- C5.  The claim says two distinct labels recorded in either order leave
two stored records.  On the code it is false: the missing newline escape
makes the second write continue the first line, so after recording `ALICE`
then `BOB` from an empty log the log has exactly one line (one record). -/
theorem markAttendence_distinct_labels_bug :
    numRecords
        (markAttendence "BOB".toList "10:00:01".toList
          (markAttendence "ALICE".toList "10:00:00".toList [])) = 1 ∧
    markAttendence "BOB".toList "10:00:01".toList
        (markAttendence "ALICE".toList "10:00:00".toList []) =
      "nALICE, 10:00:00nBOB, 10:00:01".toList := by
  constructor
  · rfl
  · rfl

/-- C7.  Every call to `markAttendence` preserves the prior log content:
the new content is the old content with at most one chunk appended, the
appended chunk is the one record text `n{name}, {dt}`, and whether the
append happens is decided exactly by the set of labels re-derived from
the current log content (no cache). -/
theorem markAttendence_append_only (name dt file : PyStr) :
    ∃ s, markAttendence name dt file = file ++ s ∧
      (s = [] ∨ s = 'n' :: (name ++ ',' :: ' ' :: dt)) ∧
      (s = [] ↔ name ∈ recordedNames file) := by
  by_cases h : name ∈ recordedNames file
  · exact ⟨[], by simp [markAttendence, h], Or.inl rfl, by simp [h]⟩
  · refine ⟨'n' :: (name ++ ',' :: ' ' :: dt), by simp [markAttendence, h],
      Or.inr rfl, ?_⟩
    simp [h]

/-- Witness for C7 at a concrete input: recording `BOB` on a log that
already holds a (well-formed) `BOB` line appends nothing. -/
theorem markAttendence_append_only_witness :
    ∃ s, markAttendence "BOB".toList "09:00:00".toList "BOB, 08:00:00".toList =
        "BOB, 08:00:00".toList ++ s ∧
      (s = [] ∨ s = 'n' :: ("BOB".toList ++ ',' :: ' ' :: "09:00:00".toList)) ∧
      (s = [] ↔ "BOB".toList ∈ recordedNames "BOB, 08:00:00".toList) :=
  markAttendence_append_only "BOB".toList "09:00:00".toList "BOB, 08:00:00".toList

/-! ### Frame matcher (main loop, lines 59-65)

The library calls `face_recognition.face_distance` (Euclidean distances of
the query descriptor to each known descriptor) and
`face_recognition.compare_faces` (those same distances tested against the
default tolerance `0.6`).  Descriptors are vectors of reals; we compare
squared distances against the squared tolerance, which is equivalent since
`sqrt` is monotone and both distance and tolerance are nonnegative. -/

/-- A face descriptor: a fixed-length vector of reals (128-dimensional in
the library), modelled over `ℚ`. -/
abbrev Descriptor := List ℚ

/-- Squared Euclidean distance between two descriptors, componentwise.
In the program all descriptors share the embedding dimension, so the
unequal-length fallback cases are never reached. -/
def distSq : Descriptor → Descriptor → ℚ
  | [], _ => 0
  | _ :: _, [] => 0
  | x :: xs, y :: ys => (x - y) ^ 2 + distSq xs ys

/-- The library default tolerance of `compare_faces` (the source passes no
tolerance argument, so `0.6` is used). -/
def tolerance : ℚ := 6 / 10

/-- Squared tolerance, against which squared distances are tested. -/
def toleranceSq : ℚ := tolerance * tolerance

/-- Embedding of `face_recognition.face_distance(encodelistKnown, encodeFace)`
as squared distances. -/
def face_distance (known : List Descriptor) (face : Descriptor) : List ℚ :=
  known.map fun k => distSq k face

/-- Embedding of `face_recognition.compare_faces(encodelistKnown, encodeFace)`:
one boolean per known descriptor, true iff its distance to the query is
within tolerance (squared comparison). -/
def compare_faces (known : List Descriptor) (face : Descriptor) : List Bool :=
  known.map fun k => decide (distSq k face ≤ toleranceSq)

/-- Embedding of `np.argmin`: the index of the first minimum of the list,
`none` on the empty list, where NumPy raises `ValueError`. -/
def argmin : List ℚ → Option ℕ
  | [] => none
  | x :: xs =>
    match argmin xs with
    | none => some 0
    | some j => if xs.getD j 0 < x then some (j + 1) else some 0

/-- Outcome of the matching step for one detected face: `matchIndex` is
`np.argmin(faceDis)` and `accepted` is `matches[matchIndex]`. -/
structure MatchResult where
  matchIndex : ℕ
  accepted : Bool
deriving DecidableEq

/-- Embedding of lines 59-64 of the main loop for one detected face:
compute `matches` and `faceDis` against the gallery, take
`matchIndex = np.argmin(faceDis)` and read `matches[matchIndex]`.
`none` models the `ValueError` that `np.argmin` raises on an empty
distance array (empty gallery). -/
def matchStep (known : List Descriptor) (face : Descriptor) : Option MatchResult :=
  match argmin (face_distance known face) with
  | none => none
  | some i => some ⟨i, (compare_faces known face).getD i false⟩

/-! ### Lemmas about distances and argmin -/

theorem distSq_nonneg : ∀ a b : Descriptor, 0 ≤ distSq a b
  | [], _ => le_refl 0
  | _ :: _, [] => le_refl 0
  | x :: xs, y :: ys => by
      have h1 : (0 : ℚ) ≤ (x - y) ^ 2 := sq_nonneg _
      have h2 := distSq_nonneg xs ys
      simpa [distSq] using add_nonneg h1 h2

theorem distSq_self : ∀ a : Descriptor, distSq a a = 0
  | [] => rfl
  | x :: xs => by simp [distSq, distSq_self xs]

theorem eq_of_distSq_eq_zero :
    ∀ a b : Descriptor, distSq a b = 0 → a.length = b.length → a = b
  | [], [], _, _ => rfl
  | [], _ :: _, _, hl => by simp at hl
  | _ :: _, [], _, hl => by simp at hl
  | x :: xs, y :: ys, h, hl => by
      have h1 : (0 : ℚ) ≤ (x - y) ^ 2 := sq_nonneg _
      have h2 := distSq_nonneg xs ys
      have h0 : distSq (x :: xs) (y :: ys) = (x - y) ^ 2 + distSq xs ys := rfl
      rw [h0] at h
      have hx : (x - y) ^ 2 = 0 := by linarith
      have hrest : distSq xs ys = 0 := by linarith
      have hxy : x = y := sub_eq_zero.mp ((pow_eq_zero_iff two_ne_zero).mp hx)
      have hlen : xs.length = ys.length := by simpa using hl
      rw [hxy, eq_of_distSq_eq_zero xs ys hrest hlen]

theorem argmin_cons_isSome (x : ℚ) (xs : List ℚ) : ∃ i, argmin (x :: xs) = some i := by
  simp only [argmin]
  cases argmin xs with
  | none => exact ⟨0, rfl⟩
  | some j =>
    by_cases hc : xs.getD j 0 < x
    · exact ⟨j + 1, if_pos hc⟩
    · exact ⟨0, if_neg hc⟩

theorem eq_nil_of_argmin_eq_none (l : List ℚ) (h : argmin l = none) : l = [] := by
  cases l with
  | nil => rfl
  | cons x xs =>
    obtain ⟨i, hi⟩ := argmin_cons_isSome x xs
    rw [hi] at h
    exact Option.noConfusion h

theorem argmin_lt_length : ∀ (l : List ℚ) (i : ℕ), argmin l = some i → i < l.length := by
  intro l
  induction l with
  | nil => intro i h; exact Option.noConfusion h
  | cons x xs ih =>
    intro i h
    cases hx : argmin xs with
    | none =>
      simp only [argmin, hx, Option.some.injEq] at h
      simp only [List.length_cons]
      omega
    | some j =>
      have hj := ih j hx
      simp only [argmin, hx] at h
      split at h <;> simp only [Option.some.injEq] at h <;>
        simp only [List.length_cons] <;> omega

theorem argmin_le : ∀ (l : List ℚ) (i : ℕ), argmin l = some i →
    ∀ j, j < l.length → l.getD i 0 ≤ l.getD j 0 := by
  intro l
  induction l with
  | nil => intro i h; exact Option.noConfusion h
  | cons x xs ih =>
    intro i h j hj
    cases hx : argmin xs with
    | none =>
      have hnil : xs = [] := eq_nil_of_argmin_eq_none xs hx
      subst hnil
      simp only [argmin, hx, Option.some.injEq] at h
      simp only [List.length_cons, List.length_nil] at hj
      have hj0 : j = 0 := by omega
      have hi0 : i = 0 := by omega
      subst hj0; subst hi0
      exact le_refl _
    | some j0 =>
      simp only [argmin, hx] at h
      split at h
      · rename_i hc
        simp only [Option.some.injEq] at h
        subst h
        simp only [List.getD_cons_succ]
        cases j with
        | zero => simpa using le_of_lt hc
        | succ k =>
          simp only [List.getD_cons_succ]
          exact ih j0 hx k (by simpa using hj)
      · rename_i hc
        simp only [Option.some.injEq] at h
        subst h
        simp only [List.getD_cons_zero]
        cases j with
        | zero => simp
        | succ k =>
          simp only [List.getD_cons_succ]
          exact le_trans (not_lt.mp hc) (ih j0 hx k (by simpa using hj))

theorem getD_map {α β : Type} (f : α → β) (dA : α) (dB : β) :
    ∀ (l : List α) (j : ℕ), j < l.length → (l.map f).getD j dB = f (l.getD j dA) := by
  intro l
  induction l with
  | nil => intro j hj; simp at hj
  | cons x xs ih =>
    intro j hj
    cases j with
    | zero => simp
    | succ k =>
      simp only [List.map_cons, List.getD_cons_succ]
      exact ih k (by simpa using hj)

/-- Shared specification of the matching step on a non-empty gallery:
the source returns the index of a minimum-distance entry, accepted iff
that entry's distance is within tolerance. -/
theorem matchStep_spec (known : List Descriptor) (face : Descriptor) (h : known ≠ []) :
    ∃ i, matchStep known face =
        some ⟨i, decide (distSq (known.getD i []) face ≤ toleranceSq)⟩ ∧
      i < known.length ∧
      ∀ j, j < known.length →
        distSq (known.getD i []) face ≤ distSq (known.getD j []) face := by
  cases hx : argmin (face_distance known face) with
  | none =>
    have : face_distance known face = [] := eq_nil_of_argmin_eq_none _ hx
    have : known = [] := by simpa [face_distance] using this
    exact absurd this h
  | some i =>
    have hilt : i < known.length := by
      have := argmin_lt_length _ _ hx
      simpa [face_distance] using this
    refine ⟨i, ?_, hilt, ?_⟩
    · have hstep : matchStep known face =
          some ⟨i, (compare_faces known face).getD i false⟩ := by
        simp [matchStep, hx]
      rw [hstep, compare_faces,
        getD_map (fun k => decide (distSq k face ≤ toleranceSq)) [] false known i hilt]
    · intro j hj
      have hmin := argmin_le _ _ hx j (by simpa [face_distance] using hj)
      rw [face_distance, getD_map (fun k => distSq k face) [] 0 known i hilt,
        getD_map (fun k => distSq k face) [] 0 known j hj] at hmin
      exact hmin

/-! ### Theorems about the matcher -/

/-- C2.  The claim says an empty gallery makes every detected face
unaccepted and the matching step never raises.  On the code it is false
whenever a face is detected: with an empty gallery the distance array is
empty and `np.argmin` raises `ValueError` (modelled here by `none`), so
the step raises instead of returning an unaccepted result. -/
theorem matchStep_empty_gallery_raises (face : Descriptor) :
    matchStep [] face = none := rfl

/-- C3.  On a non-empty gallery the matching step returns the index of a
minimum-distance gallery entry, accepted exactly when that entry passes
the tolerance test; in particular when the minimum distance exceeds the
tolerance the result is unaccepted whichever entry was nearest. -/
theorem matchStep_nearest_and_threshold (known : List Descriptor) (face : Descriptor)
    (h : known ≠ []) :
    ∃ i, matchStep known face =
        some ⟨i, decide (distSq (known.getD i []) face ≤ toleranceSq)⟩ ∧
      i < known.length ∧
      (∀ j, j < known.length →
        distSq (known.getD i []) face ≤ distSq (known.getD j []) face) ∧
      (toleranceSq < distSq (known.getD i []) face →
        matchStep known face = some ⟨i, false⟩) := by
  obtain ⟨i, hstep, hilt, hmin⟩ := matchStep_spec known face h
  refine ⟨i, hstep, hilt, hmin, ?_⟩
  intro ht
  have hdec : decide (distSq (known.getD i []) face ≤ toleranceSq) = false :=
    decide_eq_false (not_le.mpr ht)
  rw [hstep, hdec]

/-- Witness for C3 at the gallery `[[1]]` and the query `[0]`. -/
theorem matchStep_nearest_and_threshold_witness :
    ([[(1 : ℚ)]] : List Descriptor) ≠ [] ∧
    ∃ i, matchStep [[(1 : ℚ)]] [0] =
        some ⟨i, decide (distSq (([[(1 : ℚ)]] : List Descriptor).getD i []) [0] ≤ toleranceSq)⟩ ∧
      i < ([[(1 : ℚ)]] : List Descriptor).length ∧
      (∀ j, j < ([[(1 : ℚ)]] : List Descriptor).length →
        distSq (([[(1 : ℚ)]] : List Descriptor).getD i []) [0] ≤
          distSq (([[(1 : ℚ)]] : List Descriptor).getD j []) [0]) ∧
      (toleranceSq < distSq (([[(1 : ℚ)]] : List Descriptor).getD i []) [0] →
        matchStep [[(1 : ℚ)]] [0] = some ⟨i, false⟩) :=
  ⟨by simp, matchStep_nearest_and_threshold [[(1 : ℚ)]] [0] (by simp)⟩

/-- C4.  A query descriptor equal to some gallery descriptor (all
descriptors having the embedding dimension) is matched to an entry at
distance `0`, equal to the query, and accepted. -/
theorem matchStep_exact_match (known : List Descriptor) (face : Descriptor) (j : ℕ)
    (hj : j < known.length) (hjeq : known.getD j [] = face)
    (hlen : ∀ k, k < known.length → (known.getD k []).length = face.length) :
    ∃ i, i < known.length ∧ matchStep known face = some ⟨i, true⟩ ∧
      distSq (known.getD i []) face = 0 ∧ known.getD i [] = face := by
  have hne : known ≠ [] := by
    intro hnil
    subst hnil
    simp at hj
  obtain ⟨i, hstep, hilt, hmin⟩ := matchStep_spec known face hne
  have h0 : distSq (known.getD i []) face ≤ 0 := by
    have := hmin j hj
    rwa [hjeq, distSq_self] at this
  have hz : distSq (known.getD i []) face = 0 :=
    le_antisymm h0 (distSq_nonneg _ _)
  have heq : known.getD i [] = face :=
    eq_of_distSq_eq_zero _ _ hz (hlen i hilt)
  have hacc : decide (distSq (known.getD i []) face ≤ toleranceSq) = true := by
    rw [hz, decide_eq_true_eq]
    norm_num [toleranceSq, tolerance]
  rw [hacc] at hstep
  exact ⟨i, hilt, hstep, hz, heq⟩

/-- Witness for C4 at the gallery `[[1], [2]]` and the query `[2]`,
equal to the entry at index `1`. -/
theorem matchStep_exact_match_witness :
    (1 < ([[(1 : ℚ)], [2]] : List Descriptor).length ∧
      ([[(1 : ℚ)], [2]] : List Descriptor).getD 1 [] = [2] ∧
      ∀ k, k < ([[(1 : ℚ)], [2]] : List Descriptor).length →
        (([[(1 : ℚ)], [2]] : List Descriptor).getD k []).length =
          ([(2 : ℚ)] : Descriptor).length) ∧
    ∃ i, i < ([[(1 : ℚ)], [2]] : List Descriptor).length ∧
      matchStep [[(1 : ℚ)], [2]] [2] = some ⟨i, true⟩ ∧
      distSq (([[(1 : ℚ)], [2]] : List Descriptor).getD i []) [2] = 0 ∧
      ([[(1 : ℚ)], [2]] : List Descriptor).getD i [] = [2] :=
  ⟨⟨by simp, rfl, by
      intro k hk
      simp only [List.length_cons, List.length_nil] at hk
      interval_cases k <;> rfl⟩,
    matchStep_exact_match [[(1 : ℚ)], [2]] [2] 1 (by simp) rfl (by
      intro k hk
      simp only [List.length_cons, List.length_nil] at hk
      interval_cases k <;> rfl)⟩

/-! ### Gallery builder (`findEncodings`, lines 19-26) -/

/-- Embedding of `findEncodings(images)`: for each image, convert its
color channels (`cv2.cvtColor`, an external image transform) and take
`face_recognition.face_encodings(img)[0]`, the first detected face's
descriptor, appending it to the encode list.  `none` models the
`IndexError` raised when an image yields no face.  The image type and
both external collaborators are abstract. -/
def findEncodings {α : Type} (cvtColor : α → α) (face_encodings : α → List Descriptor) :
    List α → Option (List Descriptor)
  | [] => some []
  | img :: rest =>
    match face_encodings (cvtColor img) with
    | [] => none
    | e :: _ => (findEncodings cvtColor face_encodings rest).map fun l => e :: l

/-- C8.  When every reference image has at least one detected face,
`findEncodings` yields exactly one descriptor per image, in image order,
each being the first detected face's descriptor of its image. -/
theorem findEncodings_one_per_image {α : Type} (cvtColor : α → α)
    (face_encodings : α → List Descriptor) (images : List α)
    (h : ∀ img ∈ images, face_encodings (cvtColor img) ≠ []) :
    ∃ l, findEncodings cvtColor face_encodings images = some l ∧
      l.length = images.length ∧
      ∀ j img, images.get? j = some img →
        l.get? j = (face_encodings (cvtColor img)).head? := by
  induction images with
  | nil => exact ⟨[], rfl, rfl, by intro j img hj; simp at hj⟩
  | cons img rest ih =>
    obtain ⟨l, hl, hlen, hget⟩ := ih fun x hx => h x (List.mem_cons_of_mem _ hx)
    have hne := h img (List.mem_cons_self _ _)
    cases he : face_encodings (cvtColor img) with
    | nil => exact absurd he hne
    | cons e es =>
      refine ⟨e :: l, ?_, by simp [hlen], ?_⟩
      · simp [findEncodings, he, hl]
      · intro j img' hj
        cases j with
        | zero =>
          simp only [List.get?_cons_zero, Option.some.injEq] at hj
          subst hj
          simp [he]
        | succ k =>
          simp only [List.get?_cons_succ] at hj ⊢
          exact hget k img' hj

/-- Witness for C8: two reference images (modelled as the numbers `5` and
`7`), each with exactly one detected face. -/
theorem findEncodings_one_per_image_witness :
    (∀ img ∈ ([5, 7] : List ℕ), (fun n : ℕ => [[(n : ℚ)]]) ((fun n : ℕ => n) img) ≠ []) ∧
    ∃ l, findEncodings (fun n : ℕ => n) (fun n : ℕ => [[(n : ℚ)]]) [5, 7] = some l ∧
      l.length = ([5, 7] : List ℕ).length ∧
      ∀ j img, ([5, 7] : List ℕ).get? j = some img →
        l.get? j = ((fun n : ℕ => [[(n : ℚ)]]) ((fun n : ℕ => n) img)).head? :=
  ⟨by intro img _; simp,
    findEncodings_one_per_image (fun n : ℕ => n) (fun n : ℕ => [[(n : ℚ)]]) [5, 7]
      (by intro img _; simp)⟩

/-! ### Bounding-box rescaling (main loop, lines 52 and 66-67) -/

/-- A face location as returned by `face_locations`: `(top, right, bottom,
left)` pixel coordinates, i.e. `(y1, x2, y2, x1)` in the source. -/
abbrev FaceLoc := ℕ × ℕ × ℕ × ℕ

/-- Embedding of `y1,x2,y2,x1 = y1*4,x2*4,y2*4,x1*4`: scaling a box
detected on the quarter-size frame back to original-frame coordinates. -/
def scaleUpLoc : FaceLoc → FaceLoc
  | (y1, x2, y2, x1) => (y1 * 4, x2 * 4, y2 * 4, x1 * 4)

/-- Modelled from the spec: detection runs on the frame downscaled by 0.25
per axis (`cv2.resize(img, (0,0), None, 0.25, 0.25)`); the face detector on
the small frame is an external collaborator, and an original-frame
coordinate `c` lands in small-frame pixel `⌊c / 4⌋`, the finest position
the small frame can represent. -/
def downscaleCoord (c : ℕ) : ℕ := c / 4

/-- Coordinatewise downscaling of a box to the quarter-size frame. -/
def downscaleLoc : FaceLoc → FaceLoc
  | (y1, x2, y2, x1) =>
      (downscaleCoord y1, downscaleCoord x2, downscaleCoord y2, downscaleCoord x1)

/-- Two coordinates within `n` pixels of each other. -/
def withinPixels (n a b : ℕ) : Prop := a - b ≤ n ∧ b - a ≤ n

/-- The round-trip property at pixel tolerance `n`: every coordinate of a
box, downscaled to the quarter-size frame and scaled back up by 4,
is within `n` pixels of the original coordinate. -/
def roundTripWithin (n : ℕ) (loc : FaceLoc) : Prop :=
  withinPixels n (scaleUpLoc (downscaleLoc loc)).1 loc.1 ∧
  withinPixels n (scaleUpLoc (downscaleLoc loc)).2.1 loc.2.1 ∧
  withinPixels n (scaleUpLoc (downscaleLoc loc)).2.2.1 loc.2.2.1 ∧
  withinPixels n (scaleUpLoc (downscaleLoc loc)).2.2.2 loc.2.2.2

/-- C6 counterexample.  The claim says the round trip is within ±1 pixel
per coordinate; at the box `(3, 3, 3, 3)` the downscaled box is
`(0, 0, 0, 0)`, the upscaled box is `(0, 0, 0, 0)` again, and every
coordinate is off by 3 pixels. -/
theorem roundTrip_not_within_one : ¬ roundTripWithin 1 (3, 3, 3, 3) := by
  unfold roundTripWithin withinPixels
  decide

/-- C6 amended.  Scaling back up by 4 can only recover a coordinate to the
4-pixel grid of the quarter-size frame, so the round trip reproduces each
of the four coordinates within ±3 pixels (not ±1). -/
theorem roundTrip_within_three (loc : FaceLoc) : roundTripWithin 3 loc := by
  obtain ⟨y1, x2, y2, x1⟩ := loc
  simp only [roundTripWithin, withinPixels, scaleUpLoc, downscaleLoc, downscaleCoord]
  omega

/-! ### Per-frame loop body (main loop, lines 56-73) -/

/-- Python `str.upper()` on the (ASCII) class names. -/
def pyUpper (s : PyStr) : PyStr := s.map Char.toUpper

/-- Body of the `for encodeFace,faceloc in zip(...)` loop for one detected
face: run the matching step; if `matches[matchIndex]` holds, look up
`classNames[matchIndex]`, uppercase it and call `markAttendence` on the
attendance log.  The rectangle and label drawing are external rendering
side effects on the frame and touch no modelled state.  `none` models an
uncaught exception (`np.argmin` on an empty gallery, or an out-of-range
`classNames` index). -/
def processFace (known : List Descriptor) (classNames : List PyStr)
    (dt : PyStr) (file : PyStr) (face : Descriptor) : Option (PyStr × MatchResult) :=
  match matchStep known face with
  | none => none
  | some r =>
    if r.accepted then
      match classNames.get? r.matchIndex with
      | none => none
      | some cls => some (markAttendence (pyUpper cls) dt file, r)
    else some (file, r)

/-- The full `for` loop over the zipped encodings and locations, threading
the attendance log through the per-face steps and collecting each face's
match outcome; each iteration's wall-clock timestamp is drawn from `dts`. -/
def processFaces (known : List Descriptor) (classNames : List PyStr) :
    List (Descriptor × FaceLoc) → List PyStr → PyStr → Option (PyStr × List MatchResult)
  | [], _, file => some (file, [])
  | (face, _loc) :: rest, dts, file =>
    match processFace known classNames (dts.headD []) file face with
    | none => none
    | some (f2, r) =>
      match processFaces known classNames rest dts.tail f2 with
      | none => none
      | some (f3, rs) => some (f3, r :: rs)

/-- One frame of the main loop: the detected face locations
`facesCurFrame` and their encodings `encodeCurFrame` are zipped and
processed in order against the gallery and the attendance log. -/
def processFrame (known : List Descriptor) (classNames : List PyStr)
    (encodeCurFrame : List Descriptor) (facesCurFrame : List FaceLoc)
    (dts : List PyStr) (file : PyStr) : Option (PyStr × List MatchResult) :=
  processFaces known classNames (encodeCurFrame.zip facesCurFrame) dts file

/-- C9.  A frame with zero detected faces: the loop over the zipped face
list runs zero iterations, so the attendance log is unchanged, the
match-result sequence is empty, and nothing raises. -/
theorem processFrame_no_faces (known : List Descriptor) (classNames : List PyStr)
    (encodeCurFrame : List Descriptor) (dts : List PyStr) (file : PyStr) :
    processFrame known classNames encodeCurFrame [] dts file = some (file, []) := by
  simp [processFrame, List.zip_nil_right, processFaces]

/-- C10.  Whenever a face's match is accepted, the label handed to
`markAttendence` is the uppercased gallery label
(`classNames[matchIndex].upper()`), so attendance deduplication compares
against the uppercased label rather than the label as loaded. -/
theorem processFace_records_uppercased (known : List Descriptor)
    (classNames : List PyStr) (dt file : PyStr) (face : Descriptor)
    (r : MatchResult) (cls : PyStr)
    (hstep : matchStep known face = some r) (hacc : r.accepted = true)
    (hcls : classNames.get? r.matchIndex = some cls) :
    processFace known classNames dt file face =
      some (markAttendence (pyUpper cls) dt file, r) := by
  have hcls2 : classNames[r.matchIndex]? = some cls := by
    rw [← List.get?_eq_getElem?]
    exact hcls
  simp [processFace, hstep, hacc, hcls2]

/-- Witness for C10: a one-entry gallery labelled `alice`, a query equal
to its descriptor; the recorded label is `ALICE`. -/
theorem processFace_records_uppercased_witness :
    (matchStep [[(0 : ℚ)]] [0] = some ⟨0, true⟩ ∧
      (⟨0, true⟩ : MatchResult).accepted = true ∧
      (["alice".toList] : List PyStr).get? (⟨0, true⟩ : MatchResult).matchIndex =
        some "alice".toList) ∧
    processFace [[(0 : ℚ)]] ["alice".toList] "10:00:00".toList [] [0] =
      some (markAttendence (pyUpper "alice".toList) "10:00:00".toList [], ⟨0, true⟩) :=
  ⟨⟨by norm_num [matchStep, face_distance, compare_faces, argmin, distSq,
      toleranceSq, tolerance], rfl, rfl⟩,
    processFace_records_uppercased [[(0 : ℚ)]] ["alice".toList] "10:00:00".toList []
      [0] ⟨0, true⟩ "alice".toList
      (by norm_num [matchStep, face_distance, compare_faces, argmin, distSq,
        toleranceSq, tolerance]) rfl rfl⟩

end FaceRec
